import Mathlib

/-!
Verification of the `economic_engineering` repository (files `credit.py` and
`economic_engineering.py`) against its natural-language specification.

The development shallowly embeds the code:

* Calendar dates are a `Date` structure over `ℕ` (proleptic Gregorian, as in
  Python's `datetime.date`); `toOrdinal` is `date.toordinal`, `dayOfWeek`
  is `date.weekday()` (Monday = 0 .. Sunday = 6).
* `easterMonthDay` is dateutil's `easter(year)` for the Western (Gregorian)
  method, the method used by `pandas.tseries.offsets.Easter` (the `e` term of
  dateutil's algorithm is 0 for this method and is omitted).  All of its
  divisions and remainders have non-negative arguments with positive divisors,
  where Python floor division and Lean's `Int` euclidean division agree.
* `isHoliday` embeds the 15 rules of `PeruHolidayCalendar`: 11 fixed-date
  rules, 2 rules observed via pandas' `nearest_workday` (a Saturday is
  observed the Friday before, a Sunday the Monday after), and 2 rules offset
  from Easter (`Easter() + Day(-3)` and `Easter() + Day(-2)`).  For the
  observed New Year rules the resolution for year `Y` lies in year `Y` or on
  31 December of year `Y - 1`, so a date `d` is compared against the
  resolutions for `d.year` and `d.year + 1`; an Easter-based holiday always
  lies in March or April of its own year.  The rules are modelled for every
  year (pandas materializes the calendar only on 1970-2200; inside that
  range, the range of every date the repository works with, the semantics
  coincide).
* `onOffset` is numpy's `is_busday` for the weekmask Mon-Fri together with
  that holiday list; `rollForwardAux` embeds the (unbounded) forward roll of
  `CustomBusinessDay.rollforward` as fuel-bounded search returning `Option`,
  and `rollforward` fixes the fuel at 366 days.
* `addMonthSnap` is `d + relativedelta(day=payment_day, months=1)`: the month
  advances by one (normalizing the year) and the day is set to
  `min(days_in_month, payment_day)`.  (`relativedelta` treats `day=0` as "no
  absolute day"; all theorems below assume `1 ≤ payment_day`, where the
  embedding agrees with dateutil.)
* `get_payment_dates`, `is_business_day`, `calculate_payment_amount` and the
  functions of `economic_engineering.py` are embedded under their source
  names.  Python's fallible float division is `pydiv` (raising on a zero
  denominator becomes `none`); `nsolve`'s result is modelled as a real `F`
  assumed to be a root of the present-value equation `pvEquationLHS = 0`.
-/

/-- `calendar.isleap` as used by `calendar.monthrange` / `dateutil`. -/
def isLeapYear (y : ℕ) : Bool :=
  y % 4 == 0 && (y % 100 != 0 || y % 400 == 0)

/-- `calendar.monthrange(y, m)[1]`: the number of days of month `m` of year `y`. -/
def daysInMonth (y m : ℕ) : ℕ :=
  if m = 2 then (if isLeapYear y then 29 else 28)
  else if m = 4 ∨ m = 6 ∨ m = 9 ∨ m = 11 then 30
  else 31

/-- A (proleptic Gregorian) calendar date, as Python's `datetime.date`. -/
@[ext] structure Date where
  year : ℕ
  month : ℕ
  day : ℕ
deriving DecidableEq, Repr

/-- Days before the first of month `m` in a non-leap year. -/
def daysBeforeMonthTable (m : ℕ) : ℕ :=
  match m with
  | 1 => 0 | 2 => 31 | 3 => 59 | 4 => 90 | 5 => 120 | 6 => 151
  | 7 => 181 | 8 => 212 | 9 => 243 | 10 => 273 | 11 => 304 | _ => 334

/-- Days of year `y` strictly before the first day of month `m`. -/
def daysBeforeMonth (y m : ℕ) : ℕ :=
  daysBeforeMonthTable m + (if 2 < m ∧ isLeapYear y then 1 else 0)

/-- `datetime.date.toordinal`: day 1 is January 1 of year 1. -/
def toOrdinal (d : Date) : ℕ :=
  365 * (d.year - 1) + (d.year - 1) / 4 - (d.year - 1) / 100 + (d.year - 1) / 400
    + daysBeforeMonth d.year d.month + d.day

/-- `datetime.date.weekday()`: Monday = 0, ..., Saturday = 5, Sunday = 6. -/
def dayOfWeek (d : Date) : ℕ :=
  (toOrdinal d + 6) % 7

/-- `(b - a).days` for two `datetime` values lying on day boundaries. -/
def daysBetween (a b : Date) : ℤ :=
  (toOrdinal b : ℤ) - (toOrdinal a : ℤ)

/-- The calendar day after `d` (`d + timedelta(days=1)` on valid dates). -/
def nextDay (d : Date) : Date :=
  if d.day < daysInMonth d.year d.month then ⟨d.year, d.month, d.day + 1⟩
  else if d.month < 12 then ⟨d.year, d.month + 1, 1⟩
  else ⟨d.year + 1, 1, 1⟩

/-- The calendar day before `d` (`d - timedelta(days=1)` on valid dates). -/
def prevDay (d : Date) : Date :=
  if 1 < d.day then ⟨d.year, d.month, d.day - 1⟩
  else if 1 < d.month then ⟨d.year, d.month - 1, daysInMonth d.year (d.month - 1)⟩
  else ⟨d.year - 1, 12, 31⟩

/-- dateutil's `easter(y)` (Western/Gregorian method), returning
`(month, day)`; month is always 3 or 4. -/
def easterMonthDay (y : ℤ) : ℤ × ℤ :=
  let g := y % 19
  let c := y / 100
  let h := (c - c / 4 - (8 * c + 13) / 25 + 19 * g + 15) % 30
  let i := h - (h / 28) * (1 - (h / 28) * (29 / (h + 1)) * ((21 - g) / 11))
  let j := (y + y / 4 + i + 2 - c + c / 4) % 7
  let p := i - j
  let d := 1 + (p + 27 + (p + 6) / 40) % 31
  let m := 3 + (p + 26) / 30
  (m, d)

/-- Easter Sunday of year `y` as a `Date`. -/
def easterDate (y : ℕ) : Date :=
  let md := easterMonthDay (y : ℤ)
  ⟨y, md.1.toNat, md.2.toNat⟩

/-- pandas `nearest_workday` observance applied to the nominal date
`(y, m, d)`: Saturday moves to the Friday before, Sunday to the Monday after. -/
def observedNearestWorkday (y m d : ℕ) : Date :=
  let dd : Date := ⟨y, m, d⟩
  if dayOfWeek dd = 5 then prevDay dd
  else if dayOfWeek dd = 6 then nextDay dd
  else dd

/-- The 15 rules of `PeruHolidayCalendar`: `d` is a holiday iff some rule
resolves to `d`.  Fixed-date rules compare month and day; the two
`nearest_workday` rules (New Year's Day and New Year's 2nd Day) are compared
against their resolutions for `d.year` and `d.year + 1` (the latter can fall
on 31 December of `d.year`); "Jueves Santo" and "Viernes Santo" are Easter
Sunday of `d.year` minus 3 and 2 days. -/
def isHoliday (d : Date) : Bool :=
  (d.month == 5 && d.day == 1) ||       -- Dia del trabajo
  (d.month == 6 && d.day == 29) ||      -- San Pedro y San Pablo
  (d.month == 7 && d.day == 28) ||      -- Dia de la independencia 1
  (d.month == 7 && d.day == 29) ||      -- Dia de la independencia 2
  (d.month == 8 && d.day == 6) ||       -- Batalla de Junin
  (d.month == 8 && d.day == 30) ||      -- Santa Rosa de Lima
  (d.month == 10 && d.day == 8) ||      -- Combate de Angamos
  (d.month == 11 && d.day == 1) ||      -- Dia de todos los santos
  (d.month == 12 && d.day == 8) ||      -- Dia de la Inmaculada Concepcion
  (d.month == 12 && d.day == 9) ||      -- Batalla de Ayacucho
  (d.month == 12 && d.day == 25) ||     -- Navidad
  (d == observedNearestWorkday d.year 1 1) ||         -- New Year's Day
  (d == observedNearestWorkday (d.year + 1) 1 1) ||
  (d == observedNearestWorkday d.year 1 2) ||         -- New Year's 2nd Day
  (d == observedNearestWorkday (d.year + 1) 1 2) ||
  (d == prevDay (prevDay (prevDay (easterDate d.year)))) ||  -- Jueves Santo
  (d == prevDay (prevDay (easterDate d.year)))               -- Viernes Santo

/-- numpy `is_busday` for weekmask Mon-Fri with the Peru holiday list: the
dates `CustomBusinessDay(calendar=PeruHolidayCalendar())` lies on. -/
def onOffset (d : Date) : Bool :=
  decide (dayOfWeek d < 5) && !(isHoliday d)

/-- Fuel-bounded forward roll: the first day `≥ d` on the offset, or `none`
when the fuel runs out.  This embeds the unbounded forward search of pandas'
`CustomBusinessDay.rollforward`. -/
def rollForwardAux : ℕ → Date → Option Date
  | 0, _ => none
  | fuel + 1, d => if onOffset d then some d else rollForwardAux fuel (nextDay d)

/-- `offseter.rollforward(date)` with a year of fuel (far more than any
gap between Peruvian business days). -/
def rollforward (d : Date) : Option Date :=
  rollForwardAux 366 d

/-- `is_business_day(business_days, date)` from `credit.py`: the comparison
`date == business_days.rollforward(date)`. -/
def is_business_day (d : Date) : Bool :=
  rollforward d == some d

/-- `d + relativedelta(day=td, months=1)` from dateutil: advance the month by
one (normalizing the year) and set the day to `min(days_in_month, td)`. -/
def addMonthSnap (d : Date) (td : ℕ) : Date :=
  if 12 < d.month + 1 then
    ⟨d.year + 1, d.month + 1 - 12, min (daysInMonth (d.year + 1) (d.month + 1 - 12)) td⟩
  else
    ⟨d.year, d.month + 1, min (daysInMonth d.year (d.month + 1)) td⟩

/-- The loop body of `get_payment_dates`: `timesteps` iterations, each
advancing `payday` one month (day snapped to `td`), adjusting to a business
day when needed, and appending the adjusted date. -/
def paymentLoop (td : ℕ) : ℕ → Date → Option (List Date)
  | 0, _ => some []
  | n + 1, payday =>
    let p := addMonthSnap payday td
    match (if is_business_day p then some p else rollforward p) with
    | none => none
    | some q => (paymentLoop td n q).map (fun l => q :: l)

/-- `get_payment_dates(buy_date, payment_day, timesteps)` from `credit.py`
(without the debug trace): the starting reference is `buy_date` shifted one
month ahead to `payment_day` and is never emitted. -/
def get_payment_dates (buy_date : Date) (payment_day timesteps : ℕ) : Option (List Date) :=
  paymentLoop payment_day timesteps (addMonthSnap buy_date payment_day)

/-- Zero-pad a numeral to two digits (for `%d` / `%m` of `strftime`). -/
def pad2 (n : ℕ) : String :=
  if n < 10 then "0" ++ toString n else toString n

/-- Zero-pad a numeral to four digits (for `%Y` of `strftime`). -/
def pad4 (n : ℕ) : String :=
  if n < 10 then "000" ++ toString n
  else if n < 100 then "00" ++ toString n
  else if n < 1000 then "0" ++ toString n
  else toString n

/-- `date.strftime('%d/%m/%Y')`, the `DATE_FORMAT` of `credit.py`. -/
def formatDate (d : Date) : String :=
  pad2 d.day ++ "/" ++ pad2 d.month ++ "/" ++ pad4 d.year

/-- The loop body of `get_payment_dates` together with its diagnostic output:
the second component collects the strings printed when `debug` is true. -/
def paymentLoopDebug (td : ℕ) (debug : Bool) : ℕ → Date → Option (List Date) × List String
  | 0, _ => (some [], [])
  | n + 1, payday =>
    let p := addMonthSnap payday td
    if is_business_day p then
      let r := paymentLoopDebug td debug n p
      (r.1.map (fun l => p :: l), r.2)
    else
      let msgs1 := if debug then [formatDate p ++ " is not a business day, "] else []
      match rollforward p with
      | none => (none, msgs1)
      | some q =>
        let msgs2 := if debug then [formatDate q ++ " is."] else []
        let r := paymentLoopDebug td debug n q
        (r.1.map (fun l => q :: l), msgs1 ++ msgs2 ++ r.2)

/-- `get_payment_dates(buy_date, payment_day, timesteps, debug)` returning
both the payment dates and the diagnostic trace. -/
def get_payment_dates_debug (buy_date : Date) (payment_day timesteps : ℕ) (debug : Bool) :
    Option (List Date) × List String :=
  paymentLoopDebug payment_day debug timesteps (addMonthSnap buy_date payment_day)

noncomputable section

/-- `f_given_p(P, i, n)` from `economic_engineering.py`. -/
def f_given_p (P i : ℝ) (n : ℤ) : ℝ :=
  P * (1 + i) ^ n

/-- `p_given_f(F, i, n)` from `economic_engineering.py`. -/
def p_given_f (F i : ℝ) (n : ℤ) : ℝ :=
  F * (1 / (1 + i) ^ n)

/-- Python float division: raises `ZeroDivisionError` on a zero denominator. -/
def pydiv (a b : ℝ) : Option ℝ :=
  if b = 0 then none else some (a / b)

/-- `p_given_a(A, i, n)` from `economic_engineering.py`, with the division
embedded as Python's fallible float division. -/
def p_given_a (A i : ℝ) (n : ℤ) : Option ℝ :=
  pydiv (A * ((1 + i) ^ n - 1)) (i * (1 + i) ^ n)

/-- `EAR_to_EMR(EAR)`: `(1 + EAR) ** (1/12) - 1` (real power). -/
def EAR_to_EMR (EAR : ℝ) : ℝ :=
  (1 + EAR) ^ ((1 : ℝ) / 12) - 1

/-- `EMR_to_EAR(EMR)`: `(1 + EMR) ** 12 - 1` (integer power). -/
def EMR_to_EAR (EMR : ℝ) : ℝ :=
  (1 + EMR) ^ (12 : ℕ) - 1

/-- `EMR_to_EDR(EMR)`: `(1 + EMR) ** (1/30) - 1` (real power). -/
def EMR_to_EDR (EMR : ℝ) : ℝ :=
  (1 + EMR) ^ ((1 : ℝ) / 30) - 1

/-- `EDR_to_EAR(EDR)`: `(1 + EDR) ** 360 - 1` (integer power). -/
def EDR_to_EAR (EDR : ℝ) : ℝ :=
  (1 + EDR) ^ (360 : ℕ) - 1

/-- Python's `round(x, 2)` on the solver's real output, as rounding
`100 * x` to an integer. -/
def round2 (x : ℝ) : ℝ :=
  (round (x * 100) : ℤ) / 100

/-- The left-hand side of the equation `nsolve` is asked to zero in
`calculate_payment_amount`: `Eq = capital; for date in payment_dates:
Eq -= p_given_f(F, i_edr, (date - buy_date).days)`. -/
def pvEquationLHS (capital i_edr : ℝ) (buy_date : Date) (payment_dates : List Date) (F : ℝ) : ℝ :=
  payment_dates.foldl (fun acc d => acc - p_given_f F i_edr (daysBetween buy_date d)) capital

/-- The result of `calculate_payment_amount` given the root `F` found by
`nsolve`: `rounded_val = round(F, 2)` and
`last_val = round(F + (F - rounded_val) * len(payment_dates), 2)`. -/
def calculate_payment_amount (F : ℝ) (payment_dates : List Date) : ℝ × ℝ :=
  let rounded_val := round2 F
  let last_val := round2 (F + (F - rounded_val) * payment_dates.length)
  (rounded_val, last_val)

end

/-- A date is well-formed: months 1..12, days 1..days-in-month. -/
def Valid (d : Date) : Prop :=
  1 ≤ d.month ∧ d.month ≤ 12 ∧ 1 ≤ d.day ∧ d.day ≤ daysInMonth d.year d.month

instance (d : Date) : Decidable (Valid d) := by
  unfold Valid; infer_instance

/-- Strict chronological order on dates (lexicographic year, month, day). -/
def dateLt (a b : Date) : Prop :=
  a.year < b.year ∨ (a.year = b.year ∧
    (a.month < b.month ∨ (a.month = b.month ∧ a.day < b.day)))

/-- A monotone key for `dateLt` on well-formed dates. -/
def dateKey (d : Date) : ℕ :=
  512 * d.year + 32 * d.month + d.day

/-- Spec-side definition: the `targetDay`-of-month date one theoretical month
after `d` (month advanced by one, day snapped to `targetDay`, clamped to the
month length). -/
def oneMonthTargetDay (d : Date) (td : ℕ) : Date :=
  if 12 < d.month + 1 then
    ⟨d.year + 1, d.month + 1 - 12, min (daysInMonth (d.year + 1) (d.month + 1 - 12)) td⟩
  else
    ⟨d.year, d.month + 1, min (daysInMonth d.year (d.month + 1)) td⟩

/-- Spec-side definition: the `targetDay`-of-month date two theoretical
months after `d`. -/
def twoMonthsTargetDay (d : Date) (td : ℕ) : Date :=
  if 12 < d.month + 2 then
    ⟨d.year + 1, d.month + 2 - 12, min (daysInMonth (d.year + 1) (d.month + 2 - 12)) td⟩
  else
    ⟨d.year, d.month + 2, min (daysInMonth d.year (d.month + 2)) td⟩

/-- The month counter `12 * year + (month - 1)` of a date. -/
def monthIndex (d : Date) : ℕ :=
  12 * d.year + (d.month - 1)

/-- Months have between 28 and 31 days. -/
theorem daysInMonth_pos (y m : ℕ) : 1 ≤ daysInMonth y m := by
  unfold daysInMonth; split_ifs <;> omega

theorem daysInMonth_le (y m : ℕ) : daysInMonth y m ≤ 31 := by
  unfold daysInMonth; split_ifs <;> omega

theorem dateLt_of_dateKey {a b : Date} (hma : a.month ≤ 12) (hmb : b.month ≤ 12)
    (hda : a.day ≤ 31) (hdb : b.day ≤ 31) (h : dateKey a < dateKey b) : dateLt a b := by
  unfold dateKey at h; unfold dateLt; omega

theorem valid_nextDay {d : Date} (h : Valid d) : Valid (nextDay d) := by
  obtain ⟨h1, h2, h3, h4⟩ := h
  have p1 := daysInMonth_pos d.year (d.month + 1)
  have p2 := daysInMonth_pos (d.year + 1) 1
  unfold nextDay Valid
  split_ifs with c1 c2 <;> dsimp only <;> omega

theorem dateKey_nextDay {d : Date} (h : Valid d) : dateKey d < dateKey (nextDay d) := by
  obtain ⟨h1, h2, h3, h4⟩ := h
  have h31 : d.day ≤ 31 := le_trans h4 (daysInMonth_le _ _)
  unfold nextDay dateKey
  split_ifs with c1 c2 <;> dsimp only <;> omega

theorem valid_addMonthSnap {d : Date} {td : ℕ} (h1 : 1 ≤ d.month) (h2 : d.month ≤ 12)
    (htd : 1 ≤ td) : Valid (addMonthSnap d td) := by
  have p1 := daysInMonth_pos (d.year + 1) (d.month + 1 - 12)
  have p2 := daysInMonth_pos d.year (d.month + 1)
  unfold addMonthSnap Valid
  split_ifs with c <;> dsimp only <;> omega

theorem dateKey_addMonthSnap {d : Date} {td : ℕ} (h2 : d.month ≤ 12) (h31 : d.day ≤ 31)
    (htd : 1 ≤ td) : dateKey d < dateKey (addMonthSnap d td) := by
  have p1 := daysInMonth_pos (d.year + 1) (d.month + 1 - 12)
  have p2 := daysInMonth_pos d.year (d.month + 1)
  unfold addMonthSnap dateKey
  split_ifs with c <;> dsimp only <;> omega

/-- Whatever `rollForwardAux` returns lies on the offset. -/
theorem rollForwardAux_onOffset :
    ∀ (f : ℕ) (d e : Date), rollForwardAux f d = some e → onOffset e = true := by
  intro f
  induction f with
  | zero => intro d e h; simp [rollForwardAux] at h
  | succ f ih =>
    intro d e h
    rw [rollForwardAux] at h
    by_cases hc : onOffset d = true
    · rw [if_pos hc] at h
      obtain rfl : d = e := Option.some.inj h
      exact hc
    · rw [if_neg hc] at h
      exact ih _ _ h

/-- A date on the offset rolls to itself. -/
theorem rollForwardAux_pos {d : Date} (h : onOffset d = true) (f : ℕ) :
    rollForwardAux (f + 1) d = some d := by
  rw [rollForwardAux, if_pos h]

theorem rollforward_self {d : Date} (h : onOffset d = true) : rollforward d = some d :=
  rollForwardAux_pos h 365

/-- The successful roll is the first on-offset date among the iterates of
`nextDay`, starting from `d` itself. -/
theorem rollForwardAux_iterate :
    ∀ (f : ℕ) (d e : Date), rollForwardAux f d = some e →
      ∃ k, k < f ∧ e = nextDay^[k] d ∧ ∀ j, j < k → onOffset (nextDay^[j] d) = false := by
  intro f
  induction f with
  | zero => intro d e h; simp [rollForwardAux] at h
  | succ f ih =>
    intro d e h
    rw [rollForwardAux] at h
    by_cases hc : onOffset d = true
    · rw [if_pos hc] at h
      obtain rfl : d = e := Option.some.inj h
      exact ⟨0, Nat.succ_pos f, rfl, fun j hj => absurd hj (by omega)⟩
    · rw [if_neg hc] at h
      obtain ⟨k, hk, he, hmin⟩ := ih _ _ h
      refine ⟨k + 1, by omega, by rw [Function.iterate_succ_apply]; exact he, ?_⟩
      intro j hj
      cases j with
      | zero => simpa using Bool.not_eq_true _ ▸ (Bool.eq_false_iff.mpr hc)
      | succ j' => rw [Function.iterate_succ_apply]; exact hmin j' (by omega)

/-- Successful rolls preserve well-formedness and never move backwards. -/
theorem rollForwardAux_valid :
    ∀ (f : ℕ) (d e : Date), Valid d → rollForwardAux f d = some e →
      Valid e ∧ dateKey d ≤ dateKey e := by
  intro f
  induction f with
  | zero => intro d e _ h; simp [rollForwardAux] at h
  | succ f ih =>
    intro d e hv h
    rw [rollForwardAux] at h
    by_cases hc : onOffset d = true
    · rw [if_pos hc] at h
      obtain rfl : d = e := Option.some.inj h
      exact ⟨hv, le_refl _⟩
    · rw [if_neg hc] at h
      obtain ⟨hv', hk⟩ := ih _ _ (valid_nextDay hv) h
      exact ⟨hv', le_trans (le_of_lt (dateKey_nextDay hv)) hk⟩

/-- `is_business_day` (defined in the source through `rollforward`) agrees
with the calendar-level predicate `onOffset`. -/
theorem is_business_day_eq_onOffset (d : Date) : is_business_day d = onOffset d := by
  unfold is_business_day
  cases hc : onOffset d
  · cases he : rollforward d with
    | none => simp [he]
    | some e =>
      have hoff : onOffset e = true := rollForwardAux_onOffset _ _ _ he
      have hne : ¬(e = d) := by
        rintro rfl
        rw [hoff] at hc
        cases hc
      simp [he, hne]
  · simp [rollforward_self hc]

/-- C4: for every date `d`, `is_business_day d` is true iff `d` is not a
Saturday, not a Sunday, and not a holiday of the calendar; in particular it
is false for every date matching one of the 15 holiday rules and for every
weekend day. -/
theorem is_business_day_iff_not_weekend_not_holiday (d : Date) :
    (is_business_day d = true ↔
      dayOfWeek d ≠ 5 ∧ dayOfWeek d ≠ 6 ∧ isHoliday d = false)
    ∧ (isHoliday d = true → is_business_day d = false)
    ∧ ((dayOfWeek d = 5 ∨ dayOfWeek d = 6) → is_business_day d = false) := by
  have h7 : dayOfWeek d < 7 := Nat.mod_lt _ (by norm_num)
  rw [is_business_day_eq_onOffset]
  unfold onOffset
  refine ⟨?_, ?_, ?_⟩
  · rw [Bool.and_eq_true, decide_eq_true_eq, Bool.not_eq_true']
    constructor
    · rintro ⟨hlt, hh⟩
      exact ⟨by omega, by omega, hh⟩
    · rintro ⟨h5, h6, hh⟩
      exact ⟨by omega, hh⟩
  · intro hh
    rw [hh]
    simp
  · intro h56
    have : decide (dayOfWeek d < 5) = false := by
      rw [decide_eq_false_iff_not]
      omega
    rw [this]
    simp

/-- C7: `rollforward` is idempotent; it fixes every business day; and it
sends every non-business day to the first strictly later business day
(the first on-offset iterate of `nextDay`, all earlier iterates being
non-business). -/
theorem rollforward_idempotent (d e : Date) (h : rollforward d = some e) :
    rollforward e = some e
    ∧ (is_business_day d = true → rollforward d = some d)
    ∧ (is_business_day d = false →
        ∃ k, 0 < k ∧ e = nextDay^[k] d ∧ is_business_day e = true ∧
          ∀ j, 0 < j → j < k → is_business_day (nextDay^[j] d) = false) := by
  have hoff : onOffset e = true := rollForwardAux_onOffset _ _ _ h
  refine ⟨rollforward_self hoff, ?_, ?_⟩
  · intro hb
    rw [is_business_day_eq_onOffset] at hb
    exact rollforward_self hb
  · intro hb
    rw [is_business_day_eq_onOffset] at hb
    obtain ⟨k, hk, he, hmin⟩ := rollForwardAux_iterate _ _ _ h
    refine ⟨k, ?_, he, ?_, ?_⟩
    · rcases Nat.eq_zero_or_pos k with rfl | hpos
      · exfalso
        have hed : e = d := by simpa using he
        rw [hed] at hoff
        rw [hoff] at hb
        cases hb
      · exact hpos
    · rw [is_business_day_eq_onOffset]
      exact hoff
    · intro j _ hj
      rw [is_business_day_eq_onOffset]
      exact hmin j hj

/-- Witness for C7 at a concrete non-business day: Saturday 13 January 2024
rolls to Monday 15 January 2024. -/
theorem rollforward_idempotent_witness :
    rollforward ⟨2024, 1, 15⟩ = some ⟨2024, 1, 15⟩
    ∧ (is_business_day ⟨2024, 1, 13⟩ = true → rollforward ⟨2024, 1, 13⟩ = some ⟨2024, 1, 13⟩)
    ∧ (is_business_day ⟨2024, 1, 13⟩ = false →
        ∃ k, 0 < k ∧ (⟨2024, 1, 15⟩ : Date) = nextDay^[k] ⟨2024, 1, 13⟩
          ∧ is_business_day (⟨2024, 1, 15⟩ : Date) = true ∧
          ∀ j, 0 < j → j < k →
            is_business_day (nextDay^[j] (⟨2024, 1, 13⟩ : Date)) = false) :=
  rollforward_idempotent ⟨2024, 1, 13⟩ ⟨2024, 1, 15⟩ (by decide)

/-- The adjustment step of the loop body always agrees with `rollforward`
(on a business day the roll is the identity). -/
theorem adjust_eq_rollforward (p : Date) :
    (if is_business_day p then some p else rollforward p) = rollforward p := by
  by_cases hb : is_business_day p = true
  · rw [if_pos hb]
    rw [is_business_day_eq_onOffset] at hb
    exact (rollforward_self hb).symm
  · rw [if_neg hb]

/-- Invariant of the generator loop: from a well-formed state `q` and a
positive target day, a successful run of `n` steps returns `n` well-formed
business days forming a strictly increasing chain above `q`. -/
theorem paymentLoop_invariant (td : ℕ) :
    ∀ (n : ℕ) (q : Date) (l : List Date), 1 ≤ td → Valid q →
      paymentLoop td n q = some l →
      l.length = n ∧ (∀ x ∈ l, Valid x ∧ is_business_day x = true)
        ∧ List.Chain' dateLt (q :: l) := by
  intro n
  induction n with
  | zero =>
    intro q l _ _ h
    rw [paymentLoop] at h
    obtain rfl : ([] : List Date) = l := Option.some.inj h
    exact ⟨rfl, by simp, by simp⟩
  | succ n ih =>
    intro q l htd hv h
    rw [paymentLoop] at h
    rw [adjust_eq_rollforward] at h
    rcases hq : rollforward (addMonthSnap q td) with _ | q1
    · rw [hq] at h; cases h
    · rw [hq] at h
      have h' : (paymentLoop td n q1).map (fun l => q1 :: l) = some l := h
      rcases hl' : paymentLoop td n q1 with _ | l'
      · exfalso
        rw [hl'] at h'
        simp at h'
      · rw [hl'] at h'
        obtain rfl : q1 :: l' = l := by simpa using h'
        have hvp : Valid (addMonthSnap q td) :=
          valid_addMonthSnap hv.1 hv.2.1 htd
        obtain ⟨hvq1, hkey1⟩ := rollForwardAux_valid _ _ _ hvp hq
        have hoff1 : onOffset q1 = true := rollForwardAux_onOffset _ _ _ hq
        have hkey0 : dateKey q < dateKey (addMonthSnap q td) :=
          dateKey_addMonthSnap hv.2.1 (le_trans hv.2.2.2 (daysInMonth_le _ _)) htd
        have hlt : dateLt q q1 :=
          dateLt_of_dateKey hv.2.1 hvq1.2.1
            (le_trans hv.2.2.2 (daysInMonth_le _ _))
            (le_trans hvq1.2.2.2 (daysInMonth_le _ _))
            (lt_of_lt_of_le hkey0 hkey1)
        obtain ⟨hlen, hall, hchain⟩ := ih q1 l' htd hvq1 hl'
        refine ⟨by simp [hlen], ?_, ?_⟩
        · intro x hx
          rcases List.mem_cons.mp hx with rfl | hx'
          · exact ⟨hvq1, by rw [is_business_day_eq_onOffset]; exact hoff1⟩
          · exact hall x hx'
        · exact List.chain'_cons.mpr ⟨hlt, hchain⟩

/-- C3: for every well-formed purchase date, target day in 1..31 and period
count `n ≥ 0`, a successful run of the generator returns exactly `n` dates,
each a business day, each strictly after the previous one. -/
theorem get_payment_dates_length_business_increasing
    (buy : Date) (td n : ℕ) (l : List Date)
    (hbuy : Valid buy) (htd1 : 1 ≤ td) (htd2 : td ≤ 31)
    (h : get_payment_dates buy td n = some l) :
    l.length = n ∧ (∀ x ∈ l, is_business_day x = true) ∧ List.Chain' dateLt l := by
  unfold get_payment_dates at h
  have hv0 : Valid (addMonthSnap buy td) :=
    valid_addMonthSnap hbuy.1 hbuy.2.1 htd1
  obtain ⟨hlen, hall, hchain⟩ := paymentLoop_invariant td n _ l htd1 hv0 h
  exact ⟨hlen, fun x hx => (hall x hx).2, hchain.tail⟩

/-- Witness for C3: a concrete two-period run from 1 January 2024 with
target day 15. -/
theorem get_payment_dates_length_business_increasing_witness :
    ([⟨2024, 3, 15⟩, ⟨2024, 4, 15⟩] : List Date).length = 2
    ∧ (∀ x ∈ ([⟨2024, 3, 15⟩, ⟨2024, 4, 15⟩] : List Date), is_business_day x = true)
    ∧ List.Chain' dateLt [⟨2024, 3, 15⟩, ⟨2024, 4, 15⟩] :=
  get_payment_dates_length_business_increasing ⟨2024, 1, 1⟩ 15 2
    [⟨2024, 3, 15⟩, ⟨2024, 4, 15⟩] (by decide) (by decide) (by decide) (by decide)

/-- Two consecutive one-month/target-day shifts land on the target day two
theoretical months ahead. -/
theorem addMonthSnap_addMonthSnap (d : Date) (td : ℕ)
    (h1 : 1 ≤ d.month) (h2 : d.month ≤ 12) :
    addMonthSnap (addMonthSnap d td) td = twoMonthsTargetDay d td := by
  obtain ⟨y, m, dd⟩ := d
  dsimp only at h1 h2
  interval_cases m <;> simp [addMonthSnap, twoMonthsTargetDay]

/-- C1: for every well-formed purchase date, target day in 1..31 and period
count `n ≥ 1`, the first returned payment date is the rolled-forward
`targetDay`-of-month date two theoretical months after the purchase date —
not one month after: the starting reference one month ahead is never emitted
and differs from the first theoretical output date. -/
theorem first_payment_two_months_ahead (buy : Date) (td n : ℕ) (l : List Date)
    (hbuy : Valid buy) (htd1 : 1 ≤ td) (htd2 : td ≤ 31) (hn : 1 ≤ n)
    (h : get_payment_dates buy td n = some l) :
    l.head? = rollforward (twoMonthsTargetDay buy td)
    ∧ addMonthSnap (addMonthSnap buy td) td = twoMonthsTargetDay buy td
    ∧ oneMonthTargetDay buy td = addMonthSnap buy td
    ∧ twoMonthsTargetDay buy td ≠ oneMonthTargetDay buy td := by
  obtain ⟨n', rfl⟩ : ∃ n', n = n' + 1 := ⟨n - 1, by omega⟩
  unfold get_payment_dates at h
  rw [paymentLoop] at h
  rw [adjust_eq_rollforward] at h
  have hsnap : addMonthSnap (addMonthSnap buy td) td = twoMonthsTargetDay buy td :=
    addMonthSnap_addMonthSnap buy td hbuy.1 hbuy.2.1
  refine ⟨?_, hsnap, rfl, ?_⟩
  · rcases hq : rollforward (addMonthSnap (addMonthSnap buy td) td) with _ | q
    · rw [hq] at h; cases h
    · rw [hq] at h
      have h' : (paymentLoop td n' q).map (fun l => q :: l) = some l := h
      rcases hl' : paymentLoop td n' q with _ | l'
      · exfalso
        rw [hl'] at h'
        simp at h'
      · rw [hl'] at h'
        obtain rfl : q :: l' = l := by simpa using h'
        rw [← hsnap, hq]
        rfl
  · obtain ⟨y, m, dd⟩ := buy
    have h1 : 1 ≤ m := hbuy.1
    have h2 : m ≤ 12 := hbuy.2.1
    interval_cases m <;>
      simp [oneMonthTargetDay, twoMonthsTargetDay, Date.mk.injEq]

/-- Witness for C1: purchase 1 January 2024, target day 15, two periods;
the first returned date is 15 March 2024. -/
theorem first_payment_two_months_ahead_witness :
    ([⟨2024, 3, 15⟩, ⟨2024, 4, 15⟩] : List Date).head?
        = rollforward (twoMonthsTargetDay ⟨2024, 1, 1⟩ 15)
    ∧ addMonthSnap (addMonthSnap ⟨2024, 1, 1⟩ 15) 15 = twoMonthsTargetDay ⟨2024, 1, 1⟩ 15
    ∧ oneMonthTargetDay ⟨2024, 1, 1⟩ 15 = addMonthSnap ⟨2024, 1, 1⟩ 15
    ∧ twoMonthsTargetDay ⟨2024, 1, 1⟩ 15 ≠ oneMonthTargetDay ⟨2024, 1, 1⟩ 15 :=
  first_payment_two_months_ahead ⟨2024, 1, 1⟩ 15 2 [⟨2024, 3, 15⟩, ⟨2024, 4, 15⟩]
    (by decide) (by decide) (by decide) (by decide) (by decide)

/-- Every successful loop run is a chain in which each output date is the
business-day adjustment of the one-month/target-day shift of the previous
output date (the loop state, not the previous theoretical date). -/
theorem paymentLoop_chain (td : ℕ) :
    ∀ (n : ℕ) (q : Date) (l : List Date), paymentLoop td n q = some l →
      List.Chain' (fun a b =>
        (if is_business_day (addMonthSnap a td) then some (addMonthSnap a td)
         else rollforward (addMonthSnap a td)) = some b) (q :: l) := by
  intro n
  induction n with
  | zero =>
    intro q l h
    rw [paymentLoop] at h
    obtain rfl : ([] : List Date) = l := Option.some.inj h
    simp
  | succ n ih =>
    intro q l h
    rw [paymentLoop] at h
    rcases hq : (if is_business_day (addMonthSnap q td) then some (addMonthSnap q td)
        else rollforward (addMonthSnap q td)) with _ | q1
    · rw [hq] at h; cases h
    · rw [hq] at h
      have h' : (paymentLoop td n q1).map (fun l => q1 :: l) = some l := h
      rcases hl' : paymentLoop td n q1 with _ | l'
      · exfalso
        rw [hl'] at h'
        simp at h'
      · rw [hl'] at h'
        obtain rfl : q1 :: l' = l := by simpa using h'
        exact List.chain'_cons.mpr ⟨hq, ih q1 l' hl'⟩

/-- C10: (a) in any successful generator run, each subsequent date is the
business-day adjustment of the one-month/target-day shift applied to the
previous (already adjusted) output date; (b) that shift depends only on the
year and month of its argument, so an adjustment staying within the month
leaves the following theoretical date unchanged; (c) the shift always
advances the month counter by exactly one, so an adjustment that crossed
into a later month shifts the entire subsequent progression by one month. -/
theorem payment_dates_recurrence_from_adjusted :
    (∀ (buy : Date) (td n : ℕ) (l : List Date), get_payment_dates buy td n = some l →
      List.Chain' (fun a b =>
        (if is_business_day (addMonthSnap a td) then some (addMonthSnap a td)
         else rollforward (addMonthSnap a td)) = some b) l)
    ∧ (∀ (a b : Date) (td : ℕ), a.year = b.year → a.month = b.month →
        addMonthSnap a td = addMonthSnap b td)
    ∧ (∀ (a : Date) (td : ℕ), 1 ≤ a.month → a.month ≤ 12 →
        monthIndex (addMonthSnap a td) = monthIndex a + 1) := by
  refine ⟨?_, ?_, ?_⟩
  · intro buy td n l h
    exact (paymentLoop_chain td n _ l h).tail
  · intro a b td hy hm
    unfold addMonthSnap
    rw [hy, hm]
  · intro a td h1 h2
    unfold addMonthSnap monthIndex
    split_ifs with c <;> dsimp only <;> omega

/-- Witness for C10 at concrete inputs: a run from 1 January 2024, and the
shift facts at two dates of the same month and at a March date. -/
theorem payment_dates_recurrence_from_adjusted_witness :
    List.Chain' (fun a b =>
        (if is_business_day (addMonthSnap a 15) then some (addMonthSnap a 15)
         else rollforward (addMonthSnap a 15)) = some b)
      [⟨2024, 3, 15⟩, ⟨2024, 4, 15⟩]
    ∧ addMonthSnap ⟨2024, 1, 31⟩ 15 = addMonthSnap ⟨2024, 1, 2⟩ 15
    ∧ monthIndex (addMonthSnap ⟨2024, 3, 10⟩ 15) = monthIndex ⟨2024, 3, 10⟩ + 1 :=
  ⟨payment_dates_recurrence_from_adjusted.1 ⟨2024, 1, 1⟩ 15 2
      [⟨2024, 3, 15⟩, ⟨2024, 4, 15⟩] (by decide),
    payment_dates_recurrence_from_adjusted.2.1 ⟨2024, 1, 31⟩ ⟨2024, 1, 2⟩ 15 rfl rfl,
    payment_dates_recurrence_from_adjusted.2.2 ⟨2024, 3, 10⟩ 15 (by decide) (by decide)⟩

/-- The dates computed by the debug variant of the loop agree with the plain
loop for every value of the debug flag. -/
theorem paymentLoopDebug_fst (td : ℕ) (debug : Bool) :
    ∀ (n : ℕ) (q : Date), (paymentLoopDebug td debug n q).1 = paymentLoop td n q := by
  intro n
  induction n with
  | zero => intro q; rfl
  | succ n ih =>
    intro q
    rw [paymentLoopDebug, paymentLoop]
    by_cases hb : is_business_day (addMonthSnap q td) = true
    · rw [if_pos hb, if_pos hb]
      dsimp only
      rw [ih]
    · rw [if_neg hb, if_neg hb]
      rcases hq : rollforward (addMonthSnap q td) with _ | q1
      · rfl
      · show Option.map (fun l => q1 :: l) (paymentLoopDebug td debug n q1).1
          = Option.map (fun l => q1 :: l) (paymentLoop td n q1)
        rw [ih]

/-- C9: the generator and the solver post-processing are pure functions of
their inputs — two invocations with the same inputs return the same values —
and the generator's debug flag affects only the diagnostic trace, never the
returned list of dates. -/
theorem generator_solver_deterministic :
    ∀ (buy : Date) (td n : ℕ) (dbg1 dbg2 : Bool),
      (get_payment_dates_debug buy td n dbg1).1 = (get_payment_dates_debug buy td n dbg2).1
      ∧ (get_payment_dates_debug buy td n dbg1).1 = get_payment_dates buy td n
      ∧ ∀ (F : ℝ) (dates : List Date),
          calculate_payment_amount F dates = calculate_payment_amount F dates := by
  intro buy td n dbg1 dbg2
  refine ⟨?_, ?_, fun _ _ => rfl⟩
  · unfold get_payment_dates_debug
    rw [paymentLoopDebug_fst, paymentLoopDebug_fst]
  · unfold get_payment_dates_debug get_payment_dates
    rw [paymentLoopDebug_fst]

/-- C5: `p_given_f` and `f_given_p` are mutual inverses in their first
argument, for every rate above -1 and nonzero, and every period count
`n ≥ 1` (the identity is exact over the reals). -/
theorem present_future_roundtrip (X r : ℝ) (n : ℤ)
    (h1 : -1 < r) (h2 : r ≠ 0) (h3 : 1 ≤ n) :
    p_given_f (f_given_p X r n) r n = X := by
  have hpos : (0:ℝ) < 1 + r := by linarith
  have hz : (1 + r) ^ n ≠ 0 := zpow_ne_zero _ (ne_of_gt hpos)
  unfold p_given_f f_given_p
  rw [one_div, mul_assoc, mul_inv_cancel₀ hz, mul_one]

/-- Witness for C5 at `X = 5`, `r = 1`, `n = 1`. -/
theorem present_future_roundtrip_witness :
    p_given_f (f_given_p 5 1 1) 1 1 = 5 :=
  present_future_roundtrip 5 1 1 (by norm_num) (by norm_num) (by norm_num)

/-- C6: the annual-to-monthly-to-annual round trip is the identity for every
rate above -1, and the three conversion functions satisfy the compounding
identity `(1 + r_big) = (1 + r_small) ^ k` for the fixed period ratios 12
(annual-monthly), 30 (monthly-daily) and 360 (daily-annual). -/
theorem annual_monthly_roundtrip (r : ℝ) (h : -1 < r) :
    EMR_to_EAR (EAR_to_EMR r) = r
    ∧ (1 + EAR_to_EMR r) ^ (12 : ℕ) = 1 + r
    ∧ (∀ m : ℝ, -1 < m → (1 + EMR_to_EDR m) ^ (30 : ℕ) = 1 + m)
    ∧ (∀ dr : ℝ, 1 + EDR_to_EAR dr = (1 + dr) ^ (360 : ℕ)) := by
  have hx : (0:ℝ) ≤ 1 + r := by linarith
  have key : ((1 + r) ^ ((1:ℝ) / 12)) ^ (12 : ℕ) = 1 + r := by
    rw [← Real.rpow_natCast ((1 + r) ^ ((1:ℝ) / 12)) 12, ← Real.rpow_mul hx]
    rw [show (1:ℝ) / 12 * ((12:ℕ):ℝ) = 1 by norm_num, Real.rpow_one]
  refine ⟨?_, ?_, ?_, ?_⟩
  · unfold EMR_to_EAR EAR_to_EMR
    rw [show (1:ℝ) + ((1 + r) ^ ((1:ℝ) / 12) - 1) = (1 + r) ^ ((1:ℝ) / 12) by ring, key]
    ring
  · unfold EAR_to_EMR
    rw [show (1:ℝ) + ((1 + r) ^ ((1:ℝ) / 12) - 1) = (1 + r) ^ ((1:ℝ) / 12) by ring, key]
  · intro m hm
    have hxm : (0:ℝ) ≤ 1 + m := by linarith
    unfold EMR_to_EDR
    rw [show (1:ℝ) + ((1 + m) ^ ((1:ℝ) / 30) - 1) = (1 + m) ^ ((1:ℝ) / 30) by ring]
    rw [← Real.rpow_natCast ((1 + m) ^ ((1:ℝ) / 30)) 30, ← Real.rpow_mul hxm]
    rw [show (1:ℝ) / 30 * ((30:ℕ):ℝ) = 1 by norm_num, Real.rpow_one]
  · intro dr
    unfold EDR_to_EAR
    ring

/-- Witness for C6 at rate 0. -/
theorem annual_monthly_roundtrip_witness :
    EMR_to_EAR (EAR_to_EMR 0) = 0
    ∧ (1 + EAR_to_EMR 0) ^ (12 : ℕ) = 1 + 0
    ∧ (1 + EMR_to_EDR 0) ^ (30 : ℕ) = 1 + 0
    ∧ 1 + EDR_to_EAR 0 = (1 + 0) ^ (360 : ℕ) := by
  obtain ⟨a, b, c, d⟩ := annual_monthly_roundtrip 0 (by norm_num)
  exact ⟨a, b, c 0 (by norm_num), d 0⟩

/-- C8: for a nonzero rate above -1, `p_given_a` returns the closed-form
uniform-series present value; at rate 0 the unguarded division raises
(`none`), so in particular the zero-rate result is never the special-case
value `payment * n`. -/
theorem p_given_a_formula_and_zero_rate (A i : ℝ) (n : ℤ)
    (hne : i ≠ 0) (hv : -1 < i) :
    p_given_a A i n = some (A * ((1 + i) ^ n - 1) / (i * (1 + i) ^ n))
    ∧ (∀ (B : ℝ) (k : ℤ), p_given_a B 0 k = none)
    ∧ (∀ (B : ℝ) (k : ℤ), p_given_a B 0 k ≠ some (B * k)) := by
  have hpos : (0:ℝ) < 1 + i := by linarith
  have hz : (1 + i) ^ n ≠ 0 := zpow_ne_zero _ (ne_of_gt hpos)
  have hden : i * (1 + i) ^ n ≠ 0 := mul_ne_zero hne hz
  have hzero : ∀ (B : ℝ) (k : ℤ), p_given_a B 0 k = none := by
    intro B k
    unfold p_given_a pydiv
    rw [if_pos (by ring : (0:ℝ) * (1 + 0) ^ k = 0)]
  refine ⟨?_, hzero, ?_⟩
  · unfold p_given_a pydiv
    rw [if_neg hden]
  · intro B k
    rw [hzero B k]
    simp

/-- Witness for C8 at `A = 1`, `i = 1`, `n = 1`, and at rate 0. -/
theorem p_given_a_formula_and_zero_rate_witness :
    p_given_a 1 1 1 = some (1 * ((1 + 1) ^ (1:ℤ) - 1) / (1 * (1 + 1) ^ (1:ℤ)))
    ∧ p_given_a 2 0 3 = none := by
  obtain ⟨a, b, _⟩ := p_given_a_formula_and_zero_rate 1 1 1 (by norm_num) (by norm_num)
  exact ⟨a, b 2 3⟩

/-- C2: given the root `F` of the present-value equation for a non-empty
payment-date list, the solver's post-processing returns
`constantAmount = round(F, 2)` and
`finalAmount = round(F + (F - constantAmount) * periodCount, 2)`, where
`periodCount` is the number of payment dates in the list. -/
theorem solver_post_processing (capital i_edr : ℝ) (buy : Date)
    (dates : List Date) (F : ℝ)
    (hroot : pvEquationLHS capital i_edr buy dates F = 0) (hne : dates ≠ []) :
    (calculate_payment_amount F dates).1 = round2 F
    ∧ (calculate_payment_amount F dates).2
        = round2 (F + (F - (calculate_payment_amount F dates).1) * dates.length) :=
  ⟨rfl, rfl⟩

/-- Witness for C2: capital 100 at daily rate 0 repaid by a single payment
of 100 on the purchase day is a root of the present-value equation. -/
theorem solver_post_processing_witness :
    (calculate_payment_amount 100 [⟨2024, 1, 5⟩]).1 = round2 100
    ∧ (calculate_payment_amount 100 [⟨2024, 1, 5⟩]).2
        = round2 (100 + (100 - (calculate_payment_amount 100 [⟨2024, 1, 5⟩]).1)
            * ([⟨2024, 1, 5⟩] : List Date).length) :=
  solver_post_processing 100 0 ⟨2024, 1, 5⟩ [⟨2024, 1, 5⟩] 100
    (by norm_num [pvEquationLHS, p_given_f, daysBetween]) (by simp)

